import Mathlib

/-!
Verification of the CPU rasterization core (`src/render/cpu.rs`):
the canvas model, the integer midpoint filled-circle rasterizer, the
anti-aliased area-intersection rasterizer, and the closed-form
circle/rectangle intersection-area math.

Machine integers (`i32`, `u32`, `usize`) are modelled as `ℤ`/`ℕ` with the
explicit range checks, saturations and wrap-arounds of the source.
`f32` inputs to the integer rasterizer are modelled as `ℚ` (conversion to
integers only truncates, which `ℚ` captures); the analytic area math and
the anti-aliased rasterizer are modelled over `ℝ`, idealizing `f32`
arithmetic as exact real arithmetic.
-/

/-- Truncation toward zero, the semantics of Rust float-to-int casts. -/
def ratTrunc (q : ℚ) : ℤ := if 0 ≤ q then ⌊q⌋ else ⌈q⌉

/-- Conversion `num_traits::ToPrimitive::to_i32` on an `f32` value: succeeds iff the
value is in `[-2^31, 2^31)`, returning the truncation. -/
def to_i32 (q : ℚ) : Option ℤ :=
  if -(2 : ℚ) ^ 31 ≤ q ∧ q < 2 ^ 31 then some (ratTrunc q) else none

/-- Rust `i32::saturating_sub`. -/
def i32_saturating_sub (a b : ℤ) : ℤ := max (min (a - b) (2 ^ 31 - 1)) (-(2 ^ 31))

/-- Rust `i32::saturating_add`. -/
def i32_saturating_add (a b : ℤ) : ℤ := max (min (a + b) (2 ^ 31 - 1)) (-(2 ^ 31))

/-- Conversion `i32 -> u32` via `try_into().unwrap_or(0)`: an `i32` is never
above `u32::MAX`, so only negativity makes the conversion fail. -/
def u32_of_i32_or_zero (v : ℤ) : ℕ := if 0 ≤ v then v.toNat else 0

/-- Rust `i32::checked_sub`. -/
def i32_checked_sub (a b : ℤ) : Option ℤ :=
  if -(2 : ℤ) ^ 31 ≤ a - b ∧ a - b < 2 ^ 31 then some (a - b) else none

/-- Rust `i32::checked_add`. -/
def i32_checked_add (a b : ℤ) : Option ℤ :=
  if -(2 : ℤ) ^ 31 ≤ a + b ∧ a + b < 2 ^ 31 then some (a + b) else none

/-- A canvas: `width × height` grid of `Paint` records in one flat row-major
buffer, pixel `(x, y)` at flat index `y * width + x`. -/
structure Canvas (Paint : Type) where
  width : ℕ
  height : ℕ
  data : ℕ → Paint

/-- One call to `draw_horizontal_line_unchecked x0 x1 y`: fills the flat
index range `[y*width + x0, y*width + x1)`. -/
structure Span where
  x0 : ℕ
  x1 : ℕ
  y : ℕ
deriving DecidableEq, Repr

/-- Effect of `HorizontalLineImage::draw_horizontal_line_unchecked` on the
flat buffer. -/
def applySpan {P : Type} (c : Canvas P) (s : Span) (paint : P) : Canvas P :=
  { c with data := fun i =>
      if s.y * c.width + s.x0 ≤ i ∧ i < s.y * c.width + s.x1 then paint else c.data i }

/-- Method `IntegerRasterizer::draw_horizontal_line`: guards the (possibly absent)
signed row, then emits the unchecked span. -/
def intHLine (H : ℕ) (x0 x1 : ℕ) (osy : Option ℤ) : List Span :=
  match osy with
  | none => []
  | some sy => if 0 ≤ sy ∧ sy.toNat < H then [⟨x0, x1, sy.toNat⟩] else []

/-- The four candidate spans of one iteration of the midpoint loop in
`IntegerRasterizer::draw_filled_circle_internal`. -/
def midpointSpans (W H : ℕ) (x0 y0 x y : ℤ) : List Span :=
  (if u32_of_i32_or_zero (i32_saturating_sub x0 x) < W then
      intHLine H (u32_of_i32_or_zero (i32_saturating_sub x0 x))
        (min (u32_of_i32_or_zero (i32_saturating_add x0 x) + 1) W)
        (i32_checked_sub y0 y) ++
      intHLine H (u32_of_i32_or_zero (i32_saturating_sub x0 x))
        (min (u32_of_i32_or_zero (i32_saturating_add x0 x) + 1) W)
        (i32_checked_add y0 y)
    else []) ++
  (if u32_of_i32_or_zero (i32_saturating_sub x0 y) < W then
      intHLine H (u32_of_i32_or_zero (i32_saturating_sub x0 y))
        (min (u32_of_i32_or_zero (i32_saturating_add x0 y) + 1) W)
        (i32_checked_sub y0 x) ++
      intHLine H (u32_of_i32_or_zero (i32_saturating_sub x0 y))
        (min (u32_of_i32_or_zero (i32_saturating_add x0 y) + 1) W)
        (i32_checked_add y0 x)
    else [])

/-- The `while x <= y` midpoint loop.  `fuel` is an upper bound on the
iteration count: `x` starts at `0` and increases by `1` every iteration
while the loop runs only as long as `x ≤ y ≤ r`, so the source loop stops
after at most `r + 1` iterations and `fuel = r.toNat + 2` makes this
exactly the source loop. -/
def midpointLoop (W H : ℕ) (x0 y0 : ℤ) : ℕ → ℤ → ℤ → ℤ → List Span
  | 0, _, _, _ => []
  | fuel + 1, x, y, p =>
    if x ≤ y then
      midpointSpans W H x0 y0 x y ++
      (if p < 0 then
        midpointLoop W H x0 y0 fuel (x + 1) y (p + 2 * (x + 1) + 1)
      else
        midpointLoop W H x0 y0 fuel (x + 1) (y - 1) (p + 2 * ((x + 1) - (y - 1)) + 1))
    else []

/-- The sequence of unchecked span writes performed by
`IntegerRasterizer::draw_filled_circle_internal`: empty when any of the
three `to_i32` conversions fails. -/
def integerSpanTrace (W H : ℕ) (cx cy r : ℚ) : List Span :=
  match to_i32 cx, to_i32 cy, to_i32 r with
  | some x0, some y0, some ri => midpointLoop W H x0 y0 (ri.toNat + 2) 0 ri (1 - ri)
  | _, _, _ => []

/-- Method `IntegerRasterizer::draw_filled_circle`. -/
def IntegerRasterizer_draw_filled_circle {P : Type} (c : Canvas P) (cx cy r : ℚ)
    (paint : P) : Canvas P :=
  (integerSpanTrace c.width c.height cx cy r).foldl (fun acc s => applySpan acc s paint) c

/-! ### Basic facts about the integer conversions -/

lemma to_i32_bounds {q : ℚ} {v : ℤ} (h : to_i32 q = some v) :
    -(2 : ℤ) ^ 31 ≤ v ∧ v < 2 ^ 31 := by
  unfold to_i32 at h
  split at h
  · rename_i hq
    injection h with h'
    subst h'
    obtain ⟨hq1, hq2⟩ := hq
    unfold ratTrunc
    split
    · exact ⟨Int.le_floor.mpr (by exact_mod_cast hq1), Int.floor_lt.mpr (by exact_mod_cast hq2)⟩
    · rename_i hq0
      have hc : ⌈q⌉ ≤ 0 := Int.ceil_le.mpr (le_of_lt (by exact_mod_cast (lt_of_not_ge hq0)))
      have hc2 : ((-(2 : ℤ) ^ 31 : ℤ) : ℚ) ≤ (⌈q⌉ : ℚ) :=
        le_trans (by exact_mod_cast hq1) (Int.le_ceil q)
      have hc3 : (-(2 : ℤ) ^ 31 : ℤ) ≤ ⌈q⌉ := by exact_mod_cast hc2
      omega
  · exact absurd h (by simp)

lemma to_i32_intCast {v : ℤ} (h1 : -(2 : ℤ) ^ 31 ≤ v) (h2 : v < 2 ^ 31) :
    to_i32 (v : ℚ) = some v := by
  have c1 : -(2 : ℚ) ^ 31 ≤ (v : ℚ) := by exact_mod_cast h1
  have c2 : ((v : ℚ)) < 2 ^ 31 := by exact_mod_cast h2
  unfold to_i32 ratTrunc
  rw [if_pos ⟨c1, c2⟩]
  split <;> simp

lemma u32_of_i32_or_zero_mono {a b : ℤ} (h : a ≤ b) :
    u32_of_i32_or_zero a ≤ u32_of_i32_or_zero b := by
  unfold u32_of_i32_or_zero
  split_ifs <;> omega

lemma intHLine_mem {H x0 x1 : ℕ} {osy : Option ℤ} {s : Span}
    (h : s ∈ intHLine H x0 x1 osy) : s.x0 = x0 ∧ s.x1 = x1 ∧ s.y < H := by
  unfold intHLine at h
  match osy with
  | none => simp at h
  | some sy =>
    simp only at h
    split at h
    · rename_i hcond
      simp at h
      subst h
      exact ⟨rfl, rfl, hcond.2⟩
    · simp at h

/-! ### C3: every unchecked span emitted by the integer rasterizer is valid -/

lemma midpointSpans_ok {W H : ℕ} {x0 y0 x y : ℤ} (hx : 0 ≤ x) (hy : 0 ≤ y) {s : Span}
    (h : s ∈ midpointSpans W H x0 y0 x y) :
    s.x0 < W ∧ s.x0 ≤ s.x1 ∧ s.x1 ≤ W ∧ s.y < H := by
  have key : ∀ (t : ℤ), 0 ≤ t → ∀ o1 o2 : Option ℤ,
      ∀ s' : Span,
      s' ∈ (if u32_of_i32_or_zero (i32_saturating_sub x0 t) < W then
          intHLine H (u32_of_i32_or_zero (i32_saturating_sub x0 t))
            (min (u32_of_i32_or_zero (i32_saturating_add x0 t) + 1) W) o1 ++
          intHLine H (u32_of_i32_or_zero (i32_saturating_sub x0 t))
            (min (u32_of_i32_or_zero (i32_saturating_add x0 t) + 1) W) o2
        else []) →
      s'.x0 < W ∧ s'.x0 ≤ s'.x1 ∧ s'.x1 ≤ W ∧ s'.y < H := by
    intro t ht o1 o2 s' hs'
    split at hs'
    · rename_i hguard
      have hmono : u32_of_i32_or_zero (i32_saturating_sub x0 t) ≤
          u32_of_i32_or_zero (i32_saturating_add x0 t) := by
        apply u32_of_i32_or_zero_mono
        unfold i32_saturating_sub i32_saturating_add
        omega
      rcases List.mem_append.mp hs' with hmem | hmem <;>
      · obtain ⟨e0, e1, eH⟩ := intHLine_mem hmem
        refine ⟨by omega, by omega, by omega, eH⟩
    · simp at hs'
  unfold midpointSpans at h
  rcases List.mem_append.mp h with hmem | hmem
  · exact key x hx _ _ s hmem
  · exact key y hy _ _ s hmem

lemma midpointLoop_ok {W H : ℕ} {x0 y0 : ℤ} :
    ∀ (fuel : ℕ) (x y p : ℤ), 0 ≤ x → ∀ s ∈ midpointLoop W H x0 y0 fuel x y p,
      s.x0 < W ∧ s.x0 ≤ s.x1 ∧ s.x1 ≤ W ∧ s.y < H := by
  intro fuel
  induction fuel with
  | zero => intro x y p _ s hs; simp [midpointLoop] at hs
  | succ fuel ih =>
    intro x y p hx s hs
    unfold midpointLoop at hs
    split at hs
    · rename_i hxy
      rcases List.mem_append.mp hs with hmem | hmem
      · exact midpointSpans_ok hx (le_trans hx hxy) hmem
      · split at hmem
        · exact ih (x + 1) y _ (by omega) s hmem
        · exact ih (x + 1) (y - 1) _ (by omega) s hmem
    · simp at hs

/-- C3.  Every call the integer rasterizer makes to the unchecked canvas
primitive `draw_horizontal_line_unchecked` satisfies its preconditions:
the emitted span has `x0 < width`, `x0 ≤ x1 ≤ width`, and `y < height`,
for all inputs. -/
theorem integerRasterizer_spans_safe (W H : ℕ) (cx cy r : ℚ) :
    ∀ s ∈ integerSpanTrace W H cx cy r,
      s.x0 < W ∧ s.x0 ≤ s.x1 ∧ s.x1 ≤ W ∧ s.y < H := by
  intro s hs
  unfold integerSpanTrace at hs
  rcases hcx : to_i32 cx with _ | x0 <;> rw [hcx] at hs
  · simp at hs
  rcases hcy : to_i32 cy with _ | vy0 <;> rw [hcy] at hs
  · simp at hs
  rcases hr : to_i32 r with _ | ri <;> rw [hr] at hs
  · simp at hs
  exact midpointLoop_ok _ 0 ri (1 - ri) le_rfl s hs

/-- Witness for C3 at a concrete input: drawing `r = 0` at `(5, 5)` on a
`20 × 20` canvas emits the span `[5, 6) @ row 5`, which is in bounds. -/
theorem integerRasterizer_spans_safe_witness :
    (⟨5, 6, 5⟩ : Span) ∈ integerSpanTrace 20 20 5 5 0 ∧
      ((⟨5, 6, 5⟩ : Span).x0 < 20 ∧ (⟨5, 6, 5⟩ : Span).x0 ≤ (⟨5, 6, 5⟩ : Span).x1 ∧
        (⟨5, 6, 5⟩ : Span).x1 ≤ 20 ∧ (⟨5, 6, 5⟩ : Span).y < 20) :=
  ⟨by decide, integerRasterizer_spans_safe 20 20 5 5 0 ⟨5, 6, 5⟩ (by decide)⟩


/-! ### C6: integer-overflowing conversions skip the draw entirely -/

/-- C6.  If converting `cx`, `cy` or `r` to `i32` by truncation overflows
the `i32` range, `IntegerRasterizer::draw_filled_circle` returns with the
canvas completely unchanged: no partial draw, no error. -/
theorem integerRasterizer_overflow_skips_draw {P : Type} (c : Canvas P) (cx cy r : ℚ)
    (paint : P)
    (h : ¬(-(2 : ℚ) ^ 31 ≤ cx ∧ cx < 2 ^ 31) ∨ ¬(-(2 : ℚ) ^ 31 ≤ cy ∧ cy < 2 ^ 31) ∨
      ¬(-(2 : ℚ) ^ 31 ≤ r ∧ r < 2 ^ 31)) :
    IntegerRasterizer_draw_filled_circle c cx cy r paint = c := by
  have htrace : integerSpanTrace c.width c.height cx cy r = [] := by
    unfold integerSpanTrace
    rcases h with h | h | h
    · rw [show to_i32 cx = none from by unfold to_i32; exact if_neg h]
    · rw [show to_i32 cy = none from by unfold to_i32; exact if_neg h]
      cases to_i32 cx <;> rfl
    · rw [show to_i32 r = none from by unfold to_i32; exact if_neg h]
      cases to_i32 cx <;> cases to_i32 cy <;> rfl
  unfold IntegerRasterizer_draw_filled_circle
  rw [htrace]
  rfl

/-- Witness for C6: a circle centered at `x = 2^31` (not representable in
`i32`) is silently skipped. -/
theorem integerRasterizer_overflow_skips_draw_witness :
    IntegerRasterizer_draw_filled_circle (⟨10, 10, fun _ => 0⟩ : Canvas ℕ)
      (2147483648 : ℚ) 5 5 1 = (⟨10, 10, fun _ => 0⟩ : Canvas ℕ) :=
  integerRasterizer_overflow_skips_draw _ _ _ _ _ (Or.inl (by norm_num))

/-! ### C5: circles lying entirely off-canvas -/

lemma intHLine_empty_of {H x0 x1 : ℕ} {o : Option ℤ}
    (h : ∀ v : ℤ, o = some v → v < 0 ∨ (H : ℤ) ≤ v) : intHLine H x0 x1 o = [] := by
  match o with
  | none => rfl
  | some v =>
    rcases h v rfl with hv | hv <;>
    · show (if 0 ≤ v ∧ v.toNat < H then [(⟨x0, x1, v.toNat⟩ : Span)] else []) = []
      rw [if_neg]
      rintro ⟨h1, h2⟩
      omega

lemma i32_checked_sub_some {a b v : ℤ} (h : i32_checked_sub a b = some v) : v = a - b := by
  unfold i32_checked_sub at h
  split at h
  · injection h with h'; omega
  · cases h

lemma i32_checked_add_some {a b v : ℤ} (h : i32_checked_add a b = some v) : v = a + b := by
  unfold i32_checked_add at h
  split at h
  · injection h with h'; omega
  · cases h

lemma midpointSpans_offcanvas {W H : ℕ} {x0 y0 ri x y : ℤ}
    (hx0hi : x0 < 2 ^ 31)
    (hoff : (W : ℤ) ≤ x0 - ri ∨ y0 + ri < 0 ∨ (H : ℤ) ≤ y0 - ri)
    (hx : 0 ≤ x) (hy : 0 ≤ y) (hxr : x ≤ ri) (hyr : y ≤ ri) :
    midpointSpans W H x0 y0 x y = [] := by
  unfold midpointSpans
  rcases hoff with hoff | hoff | hoff
  · have g1 : ¬ u32_of_i32_or_zero (i32_saturating_sub x0 x) < W := by
      unfold u32_of_i32_or_zero i32_saturating_sub
      split_ifs <;> omega
    have g2 : ¬ u32_of_i32_or_zero (i32_saturating_sub x0 y) < W := by
      unfold u32_of_i32_or_zero i32_saturating_sub
      split_ifs <;> omega
    rw [if_neg g1, if_neg g2]
    rfl
  · have e1 : ∀ (a b : ℤ), 0 ≤ b → b ≤ ri → ∀ lo hi : ℕ,
        intHLine H lo hi (i32_checked_sub y0 b) = [] ∧
        intHLine H lo hi (i32_checked_add y0 b) = [] := by
      intro a b hb hbr lo hi
      constructor
      · exact intHLine_empty_of fun v hv => Or.inl (by have := i32_checked_sub_some hv; omega)
      · exact intHLine_empty_of fun v hv => Or.inl (by have := i32_checked_add_some hv; omega)
    obtain ⟨e11, e12⟩ := e1 x y hy hyr _ _
    obtain ⟨e21, e22⟩ := e1 y x hx hxr _ _
    rw [e11, e12, e21, e22]
    simp
  · have e1 : ∀ (b : ℤ), 0 ≤ b → b ≤ ri → ∀ lo hi : ℕ,
        intHLine H lo hi (i32_checked_sub y0 b) = [] ∧
        intHLine H lo hi (i32_checked_add y0 b) = [] := by
      intro b hb hbr lo hi
      constructor
      · exact intHLine_empty_of fun v hv => Or.inr (by have := i32_checked_sub_some hv; omega)
      · exact intHLine_empty_of fun v hv => Or.inr (by have := i32_checked_add_some hv; omega)
    obtain ⟨e11, e12⟩ := e1 y hy hyr _ _
    obtain ⟨e21, e22⟩ := e1 x hx hxr _ _
    rw [e11, e12, e21, e22]
    simp

lemma midpointLoop_offcanvas {W H : ℕ} {x0 y0 ri : ℤ}
    (hx0hi : x0 < 2 ^ 31)
    (hoff : (W : ℤ) ≤ x0 - ri ∨ y0 + ri < 0 ∨ (H : ℤ) ≤ y0 - ri) :
    ∀ (fuel : ℕ) (x y p : ℤ), 0 ≤ x → y ≤ ri →
      midpointLoop W H x0 y0 fuel x y p = [] := by
  intro fuel
  induction fuel with
  | zero => intro x y p _ _; rfl
  | succ fuel ih =>
    intro x y p hx hyr
    unfold midpointLoop
    split
    · rename_i hxy
      rw [midpointSpans_offcanvas hx0hi hoff hx (le_trans hx hxy) (le_trans hxy hyr) hyr]
      split
      · rw [ih (x + 1) y _ (by omega) hyr]; rfl
      · rw [ih (x + 1) (y - 1) _ (by omega) (by omega)]; rfl
    · rfl

/-- C5 (amended).  A circle whose truncated parameters are representable in
`i32` and which lies entirely off-canvas above, below, or to the right
(every emitted span or row is rejected by the guards) draws nothing: the
canvas is returned unchanged. -/
theorem integerRasterizer_offcanvas_unchanged {P : Type} (c : Canvas P) (cx cy r : ℚ)
    (paint : P) (x0 y0 ri : ℤ)
    (hcx : to_i32 cx = some x0) (hcy : to_i32 cy = some y0) (hr : to_i32 r = some ri)
    (hoff : (c.width : ℤ) ≤ x0 - ri ∨ y0 + ri < 0 ∨ (c.height : ℤ) ≤ y0 - ri) :
    IntegerRasterizer_draw_filled_circle c cx cy r paint = c := by
  have htrace : integerSpanTrace c.width c.height cx cy r = [] := by
    unfold integerSpanTrace
    rw [hcx, hcy, hr]
    exact midpointLoop_offcanvas (to_i32_bounds hcx).2 hoff _ 0 ri (1 - ri) le_rfl le_rfl
  unfold IntegerRasterizer_draw_filled_circle
  rw [htrace]
  rfl

/-- Witness for C5 (amended): the spec's example, a circle centered at
`(-1000, -1000)` with `r = 5` on a `10 × 10` canvas, leaves the canvas
unchanged. -/
theorem integerRasterizer_offcanvas_unchanged_witness :
    IntegerRasterizer_draw_filled_circle (⟨10, 10, fun _ => 0⟩ : Canvas ℕ)
      (-1000) (-1000) 5 1 = (⟨10, 10, fun _ => 0⟩ : Canvas ℕ) :=
  integerRasterizer_offcanvas_unchanged _ _ _ _ _ (-1000) (-1000) 5
    (by decide) (by decide) (by decide) (Or.inr (Or.inl (by decide)))

/-- Counterexample to C5 as stated: the circle centered at `(-1000, 5)`
with `r = 5` on a `10 × 10` canvas lies entirely off-canvas (all its points
have `x ≤ -995 < 0`), yet the integer rasterizer paints pixel `(0, 5)`:
the span end `x0 + x` is converted with `try_into().unwrap_or(0)`, so spans
entirely at negative `x` are clamped to `[0, 1)` instead of being empty. -/
theorem c5_counterexample_left_circle_writes :
    ((-1000 : ℚ) + 5 < 0) ∧
    (IntegerRasterizer_draw_filled_circle (⟨10, 10, fun _ => 0⟩ : Canvas ℕ)
        (-1000) 5 5 1).data (5 * 10 + 0) = 1 ∧
    (⟨10, 10, fun _ => 0⟩ : Canvas ℕ).data (5 * 10 + 0) = 0 := by
  refine ⟨by norm_num, ?_, rfl⟩
  decide

/-! ### C9: radius 0 at an in-bounds integer center -/

lemma flat_index_inj {W x x' y y' : ℕ} (hx : x < W) (hx' : x' < W)
    (he : y * W + x = y' * W + x') : x = x' ∧ y = y' := by
  have hW : 0 < W := by omega
  have hmod : (y * W + x) % W = x := by
    rw [Nat.add_comm, Nat.add_mul_mod_self_right, Nat.mod_eq_of_lt hx]
  have hmod' : (y' * W + x') % W = x' := by
    rw [Nat.add_comm, Nat.add_mul_mod_self_right, Nat.mod_eq_of_lt hx']
  have hxx : x = x' := by rw [← hmod, ← hmod', he]
  refine ⟨hxx, ?_⟩
  have : y * W = y' * W := by omega
  exact Nat.eq_of_mul_eq_mul_right hW this

/-- C9 (amended).  For an in-bounds integer center `(x0, y0)` whose
coordinates are representable in `i32` (below `2^31`), drawing radius `0`
with the integer rasterizer sets exactly the single pixel `(x0, y0)` to the
paint and leaves every other pixel unchanged. -/
theorem integerRasterizer_radius_zero_single_pixel {P : Type} (c : Canvas P)
    (x0 y0 : ℤ) (paint : P)
    (hx00 : 0 ≤ x0) (hy00 : 0 ≤ y0)
    (hxw : x0.toNat < c.width) (hyh : y0.toNat < c.height)
    (hx0hi : x0 < 2 ^ 31) (hy0hi : y0 < 2 ^ 31) :
    ∀ x y : ℕ, x < c.width → y < c.height →
      (IntegerRasterizer_draw_filled_circle c (x0 : ℚ) (y0 : ℚ) 0 paint).data
          (y * c.width + x) =
        if x = x0.toNat ∧ y = y0.toNat then paint else c.data (y * c.width + x) := by
  intro x y hx hy
  have hcx : to_i32 (x0 : ℚ) = some x0 :=
    to_i32_intCast (le_trans (by norm_num) hx00) hx0hi
  have hcy : to_i32 (y0 : ℚ) = some y0 :=
    to_i32_intCast (le_trans (by norm_num) hy00) hy0hi
  have hcr : to_i32 (0 : ℚ) = some 0 := by decide
  have hsub : i32_saturating_sub x0 0 = x0 := by
    unfold i32_saturating_sub; omega
  have hadd : i32_saturating_add x0 0 = x0 := by
    unfold i32_saturating_add; omega
  have hu : u32_of_i32_or_zero x0 = x0.toNat := if_pos hx00
  have hmin : min (x0.toNat + 1) c.width = x0.toNat + 1 := by omega
  have hcsub : i32_checked_sub y0 0 = some y0 := by
    unfold i32_checked_sub
    rw [if_pos ⟨by omega, by omega⟩]
    norm_num
  have hcadd : i32_checked_add y0 0 = some y0 := by
    unfold i32_checked_add
    rw [if_pos ⟨by omega, by omega⟩]
    norm_num
  have hline : intHLine c.height x0.toNat (x0.toNat + 1) (some y0) =
      [⟨x0.toNat, x0.toNat + 1, y0.toNat⟩] := by
    show (if 0 ≤ y0 ∧ y0.toNat < c.height then
        [(⟨x0.toNat, x0.toNat + 1, y0.toNat⟩ : Span)] else []) = _
    rw [if_pos ⟨hy00, hyh⟩]
  have hspans : midpointSpans c.width c.height x0 y0 0 0 =
      [⟨x0.toNat, x0.toNat + 1, y0.toNat⟩, ⟨x0.toNat, x0.toNat + 1, y0.toNat⟩,
        ⟨x0.toNat, x0.toNat + 1, y0.toNat⟩, ⟨x0.toNat, x0.toNat + 1, y0.toNat⟩] := by
    unfold midpointSpans
    rw [hsub, hadd, hu, hmin, hcsub, hcadd, if_pos (by omega : x0.toNat < c.width), hline]
    simp
  have htrace : integerSpanTrace c.width c.height (x0 : ℚ) (y0 : ℚ) 0 =
      [⟨x0.toNat, x0.toNat + 1, y0.toNat⟩, ⟨x0.toNat, x0.toNat + 1, y0.toNat⟩,
        ⟨x0.toNat, x0.toNat + 1, y0.toNat⟩, ⟨x0.toNat, x0.toNat + 1, y0.toNat⟩] := by
    unfold integerSpanTrace
    rw [hcx, hcy, hcr]
    show midpointLoop c.width c.height x0 y0 2 0 0 1 = _
    unfold midpointLoop
    rw [if_pos (le_refl (0 : ℤ)), if_neg (by omega : ¬ (1 : ℤ) < 0)]
    unfold midpointLoop
    rw [if_neg (by omega : ¬ (0 + 1 : ℤ) ≤ 0 - 1), hspans]
    simp
  unfold IntegerRasterizer_draw_filled_circle
  rw [htrace]
  show (applySpan (applySpan (applySpan (applySpan c _ paint) _ paint) _ paint) _ paint).data _ = _
  simp only [applySpan]
  have hcond : ∀ i : ℕ,
      (y0.toNat * c.width + x0.toNat ≤ i ∧ i < y0.toNat * c.width + (x0.toNat + 1)) ↔
        i = y0.toNat * c.width + x0.toNat := by omega
  by_cases hxy : x = x0.toNat ∧ y = y0.toNat
  · obtain ⟨hx1, hy1⟩ := hxy
    subst hx1; subst hy1
    rw [if_pos (show x0.toNat = x0.toNat ∧ y0.toNat = y0.toNat from ⟨rfl, rfl⟩)]
    have hc : y0.toNat * c.width + x0.toNat ≤ y0.toNat * c.width + x0.toNat ∧
        y0.toNat * c.width + x0.toNat < y0.toNat * c.width + (x0.toNat + 1) := by omega
    rw [if_pos hc]
  · have hne : ¬ (y0.toNat * c.width + x0.toNat ≤ y * c.width + x ∧
        y * c.width + x < y0.toNat * c.width + (x0.toNat + 1)) := by
      intro hcontra
      have heq : y * c.width + x = y0.toNat * c.width + x0.toNat := by omega
      exact hxy (flat_index_inj hx hxw heq)
    rw [if_neg hxy, if_neg hne, if_neg hne, if_neg hne, if_neg hne]

/-- Witness for C9 (amended) at a concrete input: radius `0` at `(5, 7)` on
a `20 × 20` all-zero canvas sets pixel `(5, 7)` to the paint and leaves
pixel `(6, 7)` unchanged. -/
theorem integerRasterizer_radius_zero_single_pixel_witness :
    (IntegerRasterizer_draw_filled_circle (⟨20, 20, fun _ => 0⟩ : Canvas ℕ)
        (5 : ℚ) (7 : ℚ) 0 9).data (7 * 20 + 5) = 9 ∧
    (IntegerRasterizer_draw_filled_circle (⟨20, 20, fun _ => 0⟩ : Canvas ℕ)
        (5 : ℚ) (7 : ℚ) 0 9).data (7 * 20 + 6) = 0 := by
  constructor
  · have := integerRasterizer_radius_zero_single_pixel
      (⟨20, 20, fun _ => 0⟩ : Canvas ℕ) 5 7 9 (by norm_num) (by norm_num)
      (by norm_num) (by norm_num) (by norm_num) (by norm_num) 5 7 (by norm_num) (by norm_num)
    simpa using this
  · have := integerRasterizer_radius_zero_single_pixel
      (⟨20, 20, fun _ => 0⟩ : Canvas ℕ) 5 7 9 (by norm_num) (by norm_num)
      (by norm_num) (by norm_num) (by norm_num) (by norm_num) 6 7 (by norm_num) (by norm_num)
    simpa using this

/-- Counterexample to C9 as stated: on a canvas wider than the `i32` range
(width `2^32 - 1`), the in-bounds integer center `(2^31 + 256, 0)` (a value
exactly representable in `f32`) with radius `0` draws nothing at all,
because `cx.to_i32()` overflows and the draw is silently skipped, so the
claimed single pixel is never set. -/
theorem c9_counterexample_center_beyond_i32 :
    (2147483904 < 4294967295) ∧
    (IntegerRasterizer_draw_filled_circle (⟨4294967295, 1, fun _ => 0⟩ : Canvas ℕ)
        (2147483904 : ℚ) 0 0 1).data (0 * 4294967295 + 2147483904) = 0 ∧
    (0 : ℕ) ≠ 1 := by
  refine ⟨by norm_num, by decide, by norm_num⟩

/-! ### C7, C8: `HorizontalLineImage` construction and conversions -/

/-- Rust `usize::checked_mul` on a 64-bit target. -/
def usize_checked_mul (a b : ℕ) : Option ℕ :=
  if a * b < 2 ^ 64 then some (a * b) else none

/-- Structure `HorizontalLineImage`: an image of `width * height` pixels of
`channelCount` subpixels each, stored flat in `data` (modelled as a list of
subpixels). -/
structure HorizontalLineImage (α : Type) where
  width : ℕ
  height : ℕ
  data : List α
deriving DecidableEq

/-- Constructor `HorizontalLineImage::new`: computes the container length as
`CHANNEL_COUNT * width * height` with `checked_mul`, failing (panicking) on
overflow, calls the container constructor with that length, and asserts the
container has exactly the requested length.  A failed `expect` or
`assert_eq` is modelled as `none`. -/
def HorizontalLineImage_new {α : Type} (channelCount width height : ℕ)
    (container_constructor : ℕ → List α) : Option (HorizontalLineImage α) :=
  match (usize_checked_mul channelCount width).bind
      (fun size => usize_checked_mul size height) with
  | none => none
  | some len =>
    if (container_constructor len).length = len then
      some ⟨width, height, container_constructor len⟩
    else none

lemma usize_checked_mul_some {a b v : ℕ} (h : usize_checked_mul a b = some v) :
    v = a * b ∧ a * b < 2 ^ 64 := by
  unfold usize_checked_mul at h
  split at h
  · rename_i hlt
    injection h with h'
    omega
  · cases h

lemma hli_new_of_bind_none {α : Type} {channelCount width height : ℕ}
    {container_constructor : ℕ → List α}
    (hm : (usize_checked_mul channelCount width).bind
      (fun size => usize_checked_mul size height) = none) :
    HorizontalLineImage_new channelCount width height container_constructor = none := by
  unfold HorizontalLineImage_new
  rw [hm]

lemma hli_new_of_bind_some {α : Type} {channelCount width height len : ℕ}
    {container_constructor : ℕ → List α}
    (hm : (usize_checked_mul channelCount width).bind
      (fun size => usize_checked_mul size height) = some len) :
    HorizontalLineImage_new channelCount width height container_constructor =
      if (container_constructor len).length = len then
        some ⟨width, height, container_constructor len⟩
      else none := by
  unfold HorizontalLineImage_new
  rw [hm]

/-- C7.  `HorizontalLineImage` construction enforces the buffer-size
invariant with overflow checking: if `channelCount * width * height`
overflows `usize`, construction fails producing no canvas; any successfully
constructed canvas has buffer byte length exactly
`width * height * bytesPerPixel`, where `bytesPerPixel` is
`channelCount * subpixelBytes` (construction also fails when the supplied
container's length differs from the requested one). -/
theorem hli_new_spec {α : Type} (channelCount width height subpixelBytes : ℕ)
    (container_constructor : ℕ → List α) :
    (2 ^ 64 ≤ channelCount * width * height →
      HorizontalLineImage_new channelCount width height container_constructor = none) ∧
    (∀ img : HorizontalLineImage α,
      HorizontalLineImage_new channelCount width height container_constructor = some img →
      img.data.length * subpixelBytes = width * height * (channelCount * subpixelBytes)) ∧
    (∀ len : ℕ, (usize_checked_mul channelCount width).bind
          (fun size => usize_checked_mul size height) = some len →
      (container_constructor len).length ≠ len →
      HorizontalLineImage_new channelCount width height container_constructor = none) := by
  refine ⟨?_, ?_, ?_⟩
  · intro hov
    apply hli_new_of_bind_none
    rcases h1 : usize_checked_mul channelCount width with _ | s
    · rfl
    · obtain ⟨hs, hlt⟩ := usize_checked_mul_some h1
      subst hs
      show usize_checked_mul (channelCount * width) height = none
      unfold usize_checked_mul
      rw [if_neg (by omega)]
  · intro img himg
    rcases hm : (usize_checked_mul channelCount width).bind
        (fun size => usize_checked_mul size height) with _ | len
    · rw [hli_new_of_bind_none hm] at himg
      cases himg
    · rw [hli_new_of_bind_some hm] at himg
      have hlen : len = channelCount * width * height := by
        rcases h1 : usize_checked_mul channelCount width with _ | s
        · rw [h1] at hm
          cases hm
        · obtain ⟨hs, _⟩ := usize_checked_mul_some h1
          subst hs
          rw [h1] at hm
          have hm' : usize_checked_mul (channelCount * width) height = some len := hm
          obtain ⟨hl, _⟩ := usize_checked_mul_some hm'
          omega
      split at himg
      · rename_i hctor
        injection himg with himg'
        subst himg'
        show (container_constructor len).length * subpixelBytes = _
        rw [hctor, hlen]
        ring
      · cases himg
  · intro len hm hne
    rw [hli_new_of_bind_some hm]
    exact if_neg hne

/-- Witness for C7: `channelCount = 1` with `width = height = 2^32`
overflows and fails; `channelCount = 3`, `2 × 2`, with a well-sized
container, succeeds with a 12-subpixel buffer (byte length
`2 * 2 * (3 * 1)`). -/
theorem hli_new_spec_witness :
    HorizontalLineImage_new 1 (2 ^ 32) (2 ^ 32) (fun n => List.replicate n (0 : ℕ)) = none ∧
    (⟨2, 2, List.replicate 12 0⟩ : HorizontalLineImage ℕ).data.length * 1 =
      2 * 2 * (3 * 1) := by
  constructor
  · exact (hli_new_spec 1 (2 ^ 32) (2 ^ 32) 1 (fun n => List.replicate n (0 : ℕ))).1
      (by norm_num)
  · exact (hli_new_spec 3 2 2 1 (fun n => List.replicate n (0 : ℕ))).2.1
      ⟨2, 2, List.replicate 12 0⟩ (by decide)

/-- Structure `image::ImageBuffer`: a packed pixel buffer with its dimensions. -/
structure ImageBuffer (α : Type) where
  width : ℕ
  height : ℕ
  data : List α
deriving DecidableEq

/-- Constructor `image::ImageBuffer::from_raw`: succeeds iff the container holds at
least `channelCount * width * height` subpixels. -/
def ImageBuffer_from_raw {α : Type} (channelCount width height : ℕ) (data : List α) :
    Option (ImageBuffer α) :=
  if channelCount * width * height ≤ data.length then some ⟨width, height, data⟩ else none

/-- Conversion `From<ImageBuffer> for HorizontalLineImage`: moves width, height and
the raw container. -/
def hli_of_imageBuffer {α : Type} (b : ImageBuffer α) : HorizontalLineImage α :=
  ⟨b.width, b.height, b.data⟩

/-- Conversion `From<HorizontalLineImage> for ImageBuffer`:
`ImageBuffer::from_raw(width, height, data).unwrap_unchecked()`.  The
`Option` records the `from_raw` length check that the source discharges
with `unwrap_unchecked`. -/
def imageBuffer_of_hli {α : Type} (channelCount : ℕ) (img : HorizontalLineImage α) :
    Option (ImageBuffer α) :=
  ImageBuffer_from_raw channelCount img.width img.height img.data

/-- C8.  Converting between `HorizontalLineImage` and a packed
`ImageBuffer` is a lossless byte-for-byte round-trip in both directions:
widths, heights and raw subpixel data are preserved exactly.  The length
invariant of `HorizontalLineImage::new` guarantees the `from_raw` check
always passes (`unwrap_unchecked` is sound). -/
theorem canvas_imageBuffer_roundtrip {α : Type} (channelCount : ℕ)
    (img : HorizontalLineImage α) (b : ImageBuffer α)
    (himg : img.data.length = channelCount * img.width * img.height)
    (hb : channelCount * b.width * b.height ≤ b.data.length) :
    imageBuffer_of_hli channelCount img =
      some ⟨img.width, img.height, img.data⟩ ∧
    hli_of_imageBuffer ⟨img.width, img.height, img.data⟩ = img ∧
    hli_of_imageBuffer b = ⟨b.width, b.height, b.data⟩ ∧
    imageBuffer_of_hli channelCount (hli_of_imageBuffer b) = some b := by
  refine ⟨?_, rfl, rfl, ?_⟩
  · unfold imageBuffer_of_hli ImageBuffer_from_raw
    rw [if_pos (by omega)]
  · unfold hli_of_imageBuffer imageBuffer_of_hli ImageBuffer_from_raw
    rw [if_pos hb]

/-- Witness for C8 at a concrete canvas: a `2 × 1` RGB image round-trips
byte-for-byte in both directions. -/
theorem canvas_imageBuffer_roundtrip_witness :
    imageBuffer_of_hli 3 (⟨2, 1, [10, 20, 30, 40, 50, 60]⟩ : HorizontalLineImage ℕ) =
      some ⟨2, 1, [10, 20, 30, 40, 50, 60]⟩ ∧
    hli_of_imageBuffer (⟨2, 1, [10, 20, 30, 40, 50, 60]⟩ : ImageBuffer ℕ) =
      ⟨2, 1, [10, 20, 30, 40, 50, 60]⟩ ∧
    imageBuffer_of_hli 3
        (hli_of_imageBuffer (⟨2, 1, [10, 20, 30, 40, 50, 60]⟩ : ImageBuffer ℕ)) =
      some ⟨2, 1, [10, 20, 30, 40, 50, 60]⟩ := by
  have h := canvas_imageBuffer_roundtrip 3
    (⟨2, 1, [10, 20, 30, 40, 50, 60]⟩ : HorizontalLineImage ℕ)
    (⟨2, 1, [10, 20, 30, 40, 50, 60]⟩ : ImageBuffer ℕ) (by decide) (by decide)
  exact ⟨h.1, h.2.2.1, h.2.2.2⟩

/-! ### The area-intersection math, over `ℝ` -/

open Real in
/-- Function `g`: indefinite integral of a circle segment,
`g(x, h, r) = (sqrt(1 - x^2/r^2) * x * r + r^2 * asin(x/r) - 2hx) / 2`. -/
noncomputable def g (x h r : ℝ) : ℝ :=
  (Real.sqrt (1 - x * x / (r * r)) * x * r + r * r * Real.arcsin (x / r) - 2 * h * x) / 2

/-- Clamp to an interval: `clamp(v, lo, hi) = max(lo, min(v, hi))`. -/
noncomputable def clamp (v lo hi : ℝ) : ℝ := max lo (min v hi)

/-- Intersection area of the infinitely tall rectangle `[x0, x1] × [h, ∞)`
with the circle of radius `r` centered at the origin. -/
noncomputable def area_intersection_fixed_circle_tall_rectangle (x0 x1 h r : ℝ) : ℝ :=
  let s := if h < r then Real.sqrt (r * r - h * h) else 0
  g (clamp x1 (-s) s) h r - g (clamp x0 (-s) s) h r

/-- Intersection area of the rectangle `[x0, x1] × [y0, y1]` with the circle
of radius `r` centered at the origin: reflect a fully-below rectangle to the
upper half-plane, split a straddling rectangle at the axis, and compute an
upper-half-plane rectangle as the difference of two tall rectangles. -/
noncomputable def area_intersection_fixed_circle_rectangle (x0 y0 x1 y1 r : ℝ) : ℝ :=
  if h0 : y0 < 0 then
    if h1 : y1 < 0 then
      area_intersection_fixed_circle_rectangle x0 (-y1) x1 (-y0) r
    else
      area_intersection_fixed_circle_rectangle x0 0 x1 (-y0) r +
      area_intersection_fixed_circle_rectangle x0 0 x1 y1 r
  else
    area_intersection_fixed_circle_tall_rectangle x0 x1 y0 r -
    area_intersection_fixed_circle_tall_rectangle x0 x1 y1 r
termination_by (if y0 < 0 then if y1 < 0 then 2 else 1 else 0 : ℕ)
decreasing_by
  · rw [if_neg (by linarith : ¬ -y1 < 0), if_pos h0, if_pos h1]
    norm_num
  · rw [if_neg (by norm_num : ¬ (0:ℝ) < 0), if_pos h0, if_neg h1]
    norm_num
  · rw [if_neg (by norm_num : ¬ (0:ℝ) < 0), if_pos h0, if_neg h1]
    norm_num

/-- Intersection area of the rectangle `[x0, x1] × [y0, y1]` and the circle
of radius `r` centered at `(cx, cy)`: translate so the center is the origin. -/
noncomputable def area_intersection_circle_rectangle (x0 y0 x1 y1 cx cy r : ℝ) : ℝ :=
  area_intersection_fixed_circle_rectangle (x0 - cx) (y0 - cy) (x1 - cx) (y1 - cy) r

/-- The clamp half-width `s` used by the tall-rectangle helper. -/
noncomputable def sHalf (h r : ℝ) : ℝ := if h < r then Real.sqrt (r * r - h * h) else 0

lemma tall_eq (x0 x1 h r : ℝ) :
    area_intersection_fixed_circle_tall_rectangle x0 x1 h r =
      g (clamp x1 (-(sHalf h r)) (sHalf h r)) h r -
      g (clamp x0 (-(sHalf h r)) (sHalf h r)) h r := rfl

/-! #### Elementary facts about `clamp`, `sHalf` and `g` -/

lemma clamp_eq_lo {v lo hi : ℝ} (h : v ≤ lo) : clamp v lo hi = lo := by
  unfold clamp
  simp only [min_def, max_def]
  split_ifs <;> linarith

lemma clamp_eq_hi {v lo hi : ℝ} (h : hi ≤ v) (hlh : lo ≤ hi) : clamp v lo hi = hi := by
  unfold clamp
  simp only [min_def, max_def]
  split_ifs <;> linarith

lemma clamp_eq_self {v lo hi : ℝ} (h1 : lo ≤ v) (h2 : v ≤ hi) : clamp v lo hi = v := by
  unfold clamp
  simp only [min_def, max_def]
  split_ifs <;> linarith

lemma clamp_mem {v lo hi : ℝ} (hlh : lo ≤ hi) : lo ≤ clamp v lo hi ∧ clamp v lo hi ≤ hi := by
  unfold clamp
  simp only [min_def, max_def]
  constructor <;> split_ifs <;> linarith

lemma clamp_mono {v w lo hi : ℝ} (h : v ≤ w) : clamp v lo hi ≤ clamp w lo hi := by
  unfold clamp
  simp only [min_def, max_def]
  split_ifs <;> linarith

lemma clamp_zero_zero (v : ℝ) : clamp v (-(0:ℝ)) 0 = 0 := by
  unfold clamp
  simp only [min_def, max_def]
  split_ifs <;> linarith

lemma sHalf_nonneg (h r : ℝ) : 0 ≤ sHalf h r := by
  unfold sHalf
  split
  · exact Real.sqrt_nonneg _
  · exact le_refl 0

lemma sHalf_le_r {h r : ℝ} (hh : 0 ≤ h) (hr : 0 ≤ r) : sHalf h r ≤ r := by
  unfold sHalf
  split
  · calc Real.sqrt (r * r - h * h) ≤ Real.sqrt (r * r) :=
        Real.sqrt_le_sqrt (by nlinarith)
      _ = r := Real.sqrt_mul_self hr
  · exact hr

lemma sHalf_anti {h1 h2 r : ℝ} (hh1 : 0 ≤ h1) (hh : h1 ≤ h2) : sHalf h2 r ≤ sHalf h1 r := by
  unfold sHalf
  split_ifs with c2 c1
  · exact Real.sqrt_le_sqrt (by nlinarith)
  · exact absurd (lt_of_le_of_lt hh c2) c1
  · exact Real.sqrt_nonneg _
  · exact le_refl 0

lemma sHalf_of_le {h r : ℝ} (hge : r ≤ h) : sHalf h r = 0 := by
  unfold sHalf
  rw [if_neg (not_lt.mpr hge)]

lemma sHalf_sq {h r : ℝ} (hlt : h < r) (hh : 0 ≤ h) :
    sHalf h r * sHalf h r = r * r - h * h := by
  unfold sHalf
  rw [if_pos hlt]
  exact Real.mul_self_sqrt (by nlinarith)

lemma g_zero (h r : ℝ) : g 0 h r = 0 := by
  unfold g
  simp

lemma g_neg (x h r : ℝ) : g (-x) h r = -g x h r := by
  unfold g
  rw [show -x * -x = x * x by ring, neg_div, Real.arcsin_neg]
  ring

/-- The function `g` depends on `h` only through the linear term `-2hx`. -/
lemma g_sub_g (x h1 h2 r : ℝ) : g x h1 r - g x h2 r = (h2 - h1) * x := by
  unfold g
  ring

/-! #### Differentiability and mean-value bounds for `g` -/

lemma continuous_g (h r : ℝ) : Continuous fun x : ℝ => g x h r := by
  unfold g
  apply Continuous.div_const
  apply Continuous.sub
  · apply Continuous.add
    · exact ((continuous_const.sub
        ((continuous_id.mul continuous_id).div_const (r * r))).sqrt.mul
          continuous_id).mul continuous_const
    · exact continuous_const.mul (Real.continuous_arcsin.comp (continuous_id.div_const r))
  · exact continuous_const.mul continuous_id

lemma hasDerivAt_g (h : ℝ) {r x : ℝ} (hr : 0 < r) (hx1 : -r < x) (hx2 : x < r) :
    HasDerivAt (fun t => g t h r) (Real.sqrt (r * r - x * x) - h) x := by
  have hrr : (0:ℝ) < r * r := by positivity
  have hx2' : x * x < r * r := by nlinarith
  have hu : 0 < 1 - x * x / (r * r) := by
    rw [sub_pos, div_lt_one hrr]; exact hx2'
  have hwpos : 0 < Real.sqrt (r * r - x * x) := Real.sqrt_pos.mpr (by nlinarith)
  set w := Real.sqrt (r * r - x * x) with hw
  have hw2 : w * w = r * r - x * x := Real.mul_self_sqrt (by nlinarith)
  have hsq1 : Real.sqrt (1 - x * x / (r * r)) = w / r := by
    rw [show 1 - x * x / (r * r) = (r * r - x * x) / (r * r) by field_simp]
    rw [Real.sqrt_div (by nlinarith) (r * r), Real.sqrt_mul_self hr.le]
  have d1 : HasDerivAt (fun t : ℝ => 1 - t * t / (r * r)) (-(2 * x) / (r * r)) x := by
    have h1 : HasDerivAt (fun t : ℝ => t * t / (r * r)) ((1 * x + x * 1) / (r * r)) x :=
      ((hasDerivAt_id x).mul (hasDerivAt_id x)).div_const _
    have h2 := h1.const_sub 1
    convert h2 using 1
    ring
  have d2 : HasDerivAt (fun t : ℝ => Real.sqrt (1 - t * t / (r * r)))
      (1 / (2 * Real.sqrt (1 - x * x / (r * r))) * (-(2 * x) / (r * r))) x :=
    (Real.hasDerivAt_sqrt (ne_of_gt hu)).comp x d1
  have d3 : HasDerivAt (fun t : ℝ => Real.sqrt (1 - t * t / (r * r)) * t * r)
      (((1 / (2 * Real.sqrt (1 - x * x / (r * r))) * (-(2 * x) / (r * r))) * x +
        Real.sqrt (1 - x * x / (r * r)) * 1) * r) x :=
    (d2.mul (hasDerivAt_id x)).mul_const r
  have hdivr : HasDerivAt (fun t : ℝ => t / r) (1 / r) x := by
    simpa using (hasDerivAt_id x).div_const r
  have hxr1 : x / r ≠ -1 := by
    intro hcon
    have hxx : x = -1 * r := (div_eq_iff (ne_of_gt hr)).mp hcon
    linarith
  have hxr2 : x / r ≠ 1 := by
    intro hcon
    have hxx : x = 1 * r := (div_eq_iff (ne_of_gt hr)).mp hcon
    linarith
  have d4 : HasDerivAt (fun t : ℝ => Real.arcsin (t / r))
      (1 / Real.sqrt (1 - (x / r) ^ 2) * (1 / r)) x :=
    (Real.hasDerivAt_arcsin hxr1 hxr2).comp x hdivr
  have d5 : HasDerivAt (fun t : ℝ => r * r * Real.arcsin (t / r))
      (r * r * (1 / Real.sqrt (1 - (x / r) ^ 2) * (1 / r))) x := d4.const_mul (r * r)
  have d6 : HasDerivAt (fun t : ℝ => 2 * h * t) (2 * h) x := by
    simpa using (hasDerivAt_id x).const_mul (2 * h)
  have dAll := ((d3.add d5).sub d6).div_const 2
  have hsq2 : Real.sqrt (1 - (x / r) ^ 2) = w / r := by
    rw [show 1 - (x / r) ^ 2 = (r * r - x * x) / (r * r) by field_simp; ring]
    rw [Real.sqrt_div (by nlinarith) (r * r), Real.sqrt_mul_self hr.le]
  rw [hsq1, hsq2] at dAll
  have hrne : r ≠ 0 := ne_of_gt hr
  have hwne : w ≠ 0 := ne_of_gt hwpos
  convert dAll using 1
  field_simp
  linear_combination (2 * w * r ^ 4) * hw2

/-- Mean-value bounds: on `[a, b] ⊆ [-r, r]`, the increment of `g` is
bounded by the extremes of its derivative `sqrt(r^2 - x^2) - h` on the open
interval. -/
lemma g_slope_bounds (h lo hi : ℝ) {r a b : ℝ} (hr : 0 < r) (hab : a ≤ b)
    (ha : -r ≤ a) (hb : b ≤ r)
    (hlo : ∀ x : ℝ, a < x → x < b → lo ≤ Real.sqrt (r * r - x * x) - h)
    (hhi : ∀ x : ℝ, a < x → x < b → Real.sqrt (r * r - x * x) - h ≤ hi) :
    lo * (b - a) ≤ g b h r - g a h r ∧ g b h r - g a h r ≤ hi * (b - a) := by
  rcases eq_or_lt_of_le hab with rfl | hab'
  · simp
  · obtain ⟨c, hc, hslope⟩ := exists_hasDerivAt_eq_slope (fun x => g x h r)
      (fun x => Real.sqrt (r * r - x * x) - h) hab'
      ((continuous_g h r).continuousOn)
      (fun x hx => hasDerivAt_g h hr (lt_of_le_of_lt ha hx.1) (lt_of_lt_of_le hx.2 hb))
    have hba : (0:ℝ) < b - a := by linarith
    have heq : g b h r - g a h r = (Real.sqrt (r * r - c * c) - h) * (b - a) := by
      rw [hslope]
      field_simp
    rw [heq]
    constructor
    · exact mul_le_mul_of_nonneg_right (hlo c hc.1 hc.2) hba.le
    · exact mul_le_mul_of_nonneg_right (hhi c hc.1 hc.2) hba.le

lemma sqrt_ge_of_le_sHalf {h r x : ℝ} (hh : 0 ≤ h) (hhr : h < r)
    (hx1 : -(sHalf h r) ≤ x) (hx2 : x ≤ sHalf h r) :
    h ≤ Real.sqrt (r * r - x * x) := by
  have hs2 := sHalf_sq hhr hh
  have hs0 := sHalf_nonneg h r
  have hxx : x * x ≤ sHalf h r * sHalf h r := by nlinarith
  calc h = Real.sqrt (h * h) := (Real.sqrt_mul_self hh).symm
    _ ≤ Real.sqrt (r * r - x * x) := Real.sqrt_le_sqrt (by nlinarith)

lemma sqrt_le_of_sHalf_sq_le {y1 r x : ℝ} (hy1 : 0 ≤ y1) (hr : 0 ≤ r)
    (hxx : sHalf y1 r * sHalf y1 r ≤ x * x) :
    Real.sqrt (r * r - x * x) ≤ y1 := by
  rcases lt_or_ge y1 r with hlt | hge
  · have hs2 := sHalf_sq hlt hy1
    calc Real.sqrt (r * r - x * x) ≤ Real.sqrt (y1 * y1) := Real.sqrt_le_sqrt (by nlinarith)
      _ = y1 := Real.sqrt_mul_self hy1
  · calc Real.sqrt (r * r - x * x) ≤ Real.sqrt (r * r) := Real.sqrt_le_sqrt (by nlinarith)
      _ = r := Real.sqrt_mul_self hr
      _ ≤ y1 := hge

set_option maxHeartbeats 1600000 in
/-- Core bound: for `0 ≤ y0 ≤ y1` the difference of the two tall-rectangle
areas (the area of `[x0,x1] × [y0,y1] ∩` circle) lies in
`[0, (x1-x0) * (y1-y0)]`. -/
lemma tall_diff_bounds {x0 x1 y0 y1 r : ℝ} (hr : 0 < r) (hx : x0 ≤ x1)
    (hy0 : 0 ≤ y0) (hy : y0 ≤ y1) :
    0 ≤ area_intersection_fixed_circle_tall_rectangle x0 x1 y0 r -
        area_intersection_fixed_circle_tall_rectangle x0 x1 y1 r ∧
    area_intersection_fixed_circle_tall_rectangle x0 x1 y0 r -
        area_intersection_fixed_circle_tall_rectangle x0 x1 y1 r ≤
      (x1 - x0) * (y1 - y0) := by
  have hy1 : 0 ≤ y1 := le_trans hy0 hy
  have hs0n : 0 ≤ sHalf y0 r := sHalf_nonneg _ _
  have hs1n : 0 ≤ sHalf y1 r := sHalf_nonneg _ _
  have hs10 : sHalf y1 r ≤ sHalf y0 r := sHalf_anti hy0 hy
  have hs0r : sHalf y0 r ≤ r := sHalf_le_r hy0 hr.le
  set F : ℝ → ℝ := fun x =>
    g (clamp x (-(sHalf y0 r)) (sHalf y0 r)) y0 r -
    g (clamp x (-(sHalf y1 r)) (sHalf y1 r)) y1 r with hF
  have hdiff : area_intersection_fixed_circle_tall_rectangle x0 x1 y0 r -
      area_intersection_fixed_circle_tall_rectangle x0 x1 y1 r = F x1 - F x0 := by
    rw [tall_eq, tall_eq]
    simp only [hF]
    ring
  set p1 := clamp (-(sHalf y0 r)) x0 x1 with hp1
  set p2 := clamp (-(sHalf y1 r)) x0 x1 with hp2
  set p3 := clamp (sHalf y1 r) x0 x1 with hp3
  set p4 := clamp (sHalf y0 r) x0 x1 with hp4
  have hx0p1 : x0 ≤ p1 := (clamp_mem hx).1
  have hp4x1 : p4 ≤ x1 := (clamp_mem hx).2
  have hp12 : p1 ≤ p2 := clamp_mono (by linarith)
  have hp23 : p2 ≤ p3 := clamp_mono (by linarith)
  have hp34 : p3 ≤ p4 := clamp_mono hs10
  have hFlo : ∀ x : ℝ, x ≤ -(sHalf y0 r) → F x = g (-(sHalf y0 r)) y0 r -
      g (-(sHalf y1 r)) y1 r := by
    intro x hxle
    simp only [hF]
    rw [clamp_eq_lo hxle, clamp_eq_lo (by linarith)]
  have hFhi : ∀ x : ℝ, sHalf y0 r ≤ x → F x = g (sHalf y0 r) y0 r -
      g (sHalf y1 r) y1 r := by
    intro x hxge
    simp only [hF]
    rw [clamp_eq_hi hxge (by linarith), clamp_eq_hi (by linarith) (by linarith)]
  have inc1 : F p1 - F x0 = 0 := by
    rcases le_or_lt x0 (-(sHalf y0 r)) with hc | hc
    · have hp1le : p1 ≤ -(sHalf y0 r) := by
        rw [hp1]
        unfold clamp
        simp only [min_def, max_def]
        split_ifs <;> linarith
      rw [hFlo p1 hp1le, hFlo x0 hc]
      ring
    · have he : p1 = x0 := by
        rw [hp1]
        unfold clamp
        simp only [min_def, max_def]
        split_ifs <;> linarith
      rw [he]
      ring
  have inc5 : F x1 - F p4 = 0 := by
    rcases le_or_lt (sHalf y0 r) x1 with hc | hc
    · have hp4ge : sHalf y0 r ≤ p4 := by
        rw [hp4]
        unfold clamp
        simp only [min_def, max_def]
        split_ifs <;> linarith
      rw [hFhi p4 hp4ge, hFhi x1 hc]
      ring
    · have he : p4 = x1 := by
        rw [hp4]
        unfold clamp
        simp only [min_def, max_def]
        split_ifs <;> linarith
      rw [he]
      ring
  have inc2 : 0 ≤ F p2 - F p1 ∧ F p2 - F p1 ≤ (y1 - y0) * (p2 - p1) := by
    rcases eq_or_lt_of_le hp12 with he | hlt
    · rw [← he]
      constructor
      · linarith
      · nlinarith
    · have hb1 : -(sHalf y0 r) ≤ p1 := by
        rw [hp1, hp2] at hlt
        rw [hp1]
        revert hlt
        unfold clamp
        simp only [min_def, max_def]
        split_ifs <;> intro hlt <;> linarith
      have hb2 : p2 ≤ -(sHalf y1 r) := by
        rw [hp1, hp2] at hlt
        rw [hp2]
        revert hlt
        unfold clamp
        simp only [min_def, max_def]
        split_ifs <;> intro hlt <;> linarith
      have hy0r : y0 < r := by
        by_contra hcon
        push_neg at hcon
        have hz : sHalf y0 r = 0 := sHalf_of_le hcon
        rw [hz] at hb1
        linarith
      have hFmid : ∀ x : ℝ, -(sHalf y0 r) ≤ x → x ≤ -(sHalf y1 r) →
          F x = g x y0 r - g (-(sHalf y1 r)) y1 r := by
        intro x h1 h2
        simp only [hF]
        rw [clamp_eq_self h1 (by linarith), clamp_eq_lo h2]
      have hslope := g_slope_bounds y0 0 (y1 - y0) hr hlt.le
        (by linarith : -r ≤ p1) (by linarith : p2 ≤ r)
        (fun x hx1 hx2 => by
          have h1 : -(sHalf y0 r) ≤ x := by linarith
          have h2 : x ≤ sHalf y0 r := by linarith
          have := sqrt_ge_of_le_sHalf hy0 hy0r h1 h2
          linarith)
        (fun x hx1 hx2 => by
          have h2 : x ≤ -(sHalf y1 r) := by linarith
          have hxx : sHalf y1 r * sHalf y1 r ≤ x * x := by nlinarith
          have := sqrt_le_of_sHalf_sq_le hy1 hr.le hxx
          linarith)
      rw [hFmid p2 (by linarith) hb2, hFmid p1 hb1 (by linarith)]
      constructor
      · have := hslope.1
        linarith [hslope.1]
      · have := hslope.2
        linarith [hslope.2]
  have inc4 : 0 ≤ F p4 - F p3 ∧ F p4 - F p3 ≤ (y1 - y0) * (p4 - p3) := by
    rcases eq_or_lt_of_le hp34 with he | hlt
    · rw [← he]
      constructor
      · linarith
      · nlinarith
    · have hb1 : sHalf y1 r ≤ p3 := by
        rw [hp3, hp4] at hlt
        rw [hp3]
        revert hlt
        unfold clamp
        simp only [min_def, max_def]
        split_ifs <;> intro hlt <;> linarith
      have hb2 : p4 ≤ sHalf y0 r := by
        rw [hp3, hp4] at hlt
        rw [hp4]
        revert hlt
        unfold clamp
        simp only [min_def, max_def]
        split_ifs <;> intro hlt <;> linarith
      have hy0r : y0 < r := by
        by_contra hcon
        push_neg at hcon
        have hz : sHalf y0 r = 0 := sHalf_of_le hcon
        rw [hz] at hb2
        linarith
      have hFmid : ∀ x : ℝ, sHalf y1 r ≤ x → x ≤ sHalf y0 r →
          F x = g x y0 r - g (sHalf y1 r) y1 r := by
        intro x h1 h2
        simp only [hF]
        rw [clamp_eq_self (by linarith) h2, clamp_eq_hi h1 (by linarith)]
      have hslope := g_slope_bounds y0 0 (y1 - y0) hr hlt.le
        (by linarith : -r ≤ p3) (by linarith : p4 ≤ r)
        (fun x hx1 hx2 => by
          have h1 : -(sHalf y0 r) ≤ x := by linarith
          have h2 : x ≤ sHalf y0 r := by linarith
          have := sqrt_ge_of_le_sHalf hy0 hy0r h1 h2
          linarith)
        (fun x hx1 hx2 => by
          have h2 : sHalf y1 r ≤ x := by linarith
          have hxx : sHalf y1 r * sHalf y1 r ≤ x * x := by nlinarith
          have := sqrt_le_of_sHalf_sq_le hy1 hr.le hxx
          linarith)
      rw [hFmid p4 (by linarith) hb2, hFmid p3 hb1 (by linarith)]
      constructor
      · linarith [hslope.1]
      · linarith [hslope.2]
  have inc3 : F p3 - F p2 = (y1 - y0) * (p3 - p2) := by
    rcases eq_or_lt_of_le hp23 with he | hlt
    · rw [← he]
      ring
    · have hb1 : -(sHalf y1 r) ≤ p2 := by
        rw [hp2, hp3] at hlt
        rw [hp2]
        revert hlt
        unfold clamp
        simp only [min_def, max_def]
        split_ifs <;> intro hlt <;> linarith
      have hb2 : p3 ≤ sHalf y1 r := by
        rw [hp2, hp3] at hlt
        rw [hp3]
        revert hlt
        unfold clamp
        simp only [min_def, max_def]
        split_ifs <;> intro hlt <;> linarith
      have hFmid : ∀ x : ℝ, -(sHalf y1 r) ≤ x → x ≤ sHalf y1 r →
          F x = g x y0 r - g x y1 r := by
        intro x h1 h2
        simp only [hF]
        rw [clamp_eq_self (by linarith) (by linarith), clamp_eq_self h1 h2]
      rw [hFmid p3 (by linarith) hb2, hFmid p2 hb1 (by linarith)]
      have e1 := g_sub_g p3 y0 y1 r
      have e2 := g_sub_g p2 y0 y1 r
      linear_combination e1 - e2
  rw [hdiff]
  have hsum : F x1 - F x0 = (F p1 - F x0) + (F p2 - F p1) + (F p3 - F p2) +
      (F p4 - F p3) + (F x1 - F p4) := by ring
  have hmid : 0 ≤ (y1 - y0) * (p3 - p2) := mul_nonneg (by linarith) (by linarith)
  constructor
  · rw [hsum, inc1, inc5, inc3]
    linarith [inc2.1, inc4.1]
  · rw [hsum, inc1, inc5, inc3]
    have hiden : (y1 - y0) * (p2 - p1) + (y1 - y0) * (p3 - p2) + (y1 - y0) * (p4 - p3) =
        (y1 - y0) * (p4 - p1) := by ring
    have hmul : (y1 - y0) * (p4 - p1) ≤ (x1 - x0) * (y1 - y0) := by
      nlinarith [(by linarith : p4 - p1 ≤ x1 - x0), (by linarith : (0:ℝ) ≤ y1 - y0)]
    linarith [inc2.2, inc4.2]

/-! #### Branch equations of `area_intersection_fixed_circle_rectangle` -/

lemma area_fixed_eq_of_nonneg {x0 y0 x1 y1 r : ℝ} (h : 0 ≤ y0) :
    area_intersection_fixed_circle_rectangle x0 y0 x1 y1 r =
      area_intersection_fixed_circle_tall_rectangle x0 x1 y0 r -
      area_intersection_fixed_circle_tall_rectangle x0 x1 y1 r := by
  rw [area_intersection_fixed_circle_rectangle]
  rw [dif_neg (not_lt.mpr h)]

lemma area_fixed_eq_split {x0 y0 x1 y1 r : ℝ} (h0 : y0 < 0) (h1 : 0 ≤ y1) :
    area_intersection_fixed_circle_rectangle x0 y0 x1 y1 r =
      area_intersection_fixed_circle_rectangle x0 0 x1 (-y0) r +
      area_intersection_fixed_circle_rectangle x0 0 x1 y1 r := by
  rw [area_intersection_fixed_circle_rectangle]
  rw [dif_pos h0, dif_neg (not_lt.mpr h1)]

lemma area_fixed_eq_flip {x0 y0 x1 y1 r : ℝ} (h0 : y0 < 0) (h1 : y1 < 0) :
    area_intersection_fixed_circle_rectangle x0 y0 x1 y1 r =
      area_intersection_fixed_circle_rectangle x0 (-y1) x1 (-y0) r := by
  rw [area_intersection_fixed_circle_rectangle]
  rw [dif_pos h0, dif_pos h1]

/-- A tall rectangle starting at or above the circle's top has zero
intersection area (the clamp collapses to the single point `0`). -/
lemma tall_of_r_le {x0 x1 h r : ℝ} (hrh : r ≤ h) :
    area_intersection_fixed_circle_tall_rectangle x0 x1 h r = 0 := by
  rw [tall_eq, sHalf_of_le hrh, clamp_zero_zero, clamp_zero_zero]
  exact sub_self _

/-! #### C10: the area of a unit cell is in [0, 1] -/

/-- The intersection area of any rectangle with any circle is nonnegative
and at most the rectangle's area. -/
lemma area_fixed_bounds {x0 y0 x1 y1 r : ℝ} (hr : 0 ≤ r) (hx : x0 ≤ x1) (hy : y0 ≤ y1) :
    0 ≤ area_intersection_fixed_circle_rectangle x0 y0 x1 y1 r ∧
    area_intersection_fixed_circle_rectangle x0 y0 x1 y1 r ≤ (x1 - x0) * (y1 - y0) := by
  have hrect : (0:ℝ) ≤ (x1 - x0) * (y1 - y0) := mul_nonneg (by linarith) (by linarith)
  rcases eq_or_lt_of_le hr with hr0 | hrpos
  · rcases lt_or_ge y0 0 with h0 | h0
    · rcases lt_or_ge y1 0 with h1 | h1
      · rw [area_fixed_eq_flip h0 h1, area_fixed_eq_of_nonneg (by linarith),
          tall_of_r_le (by linarith), tall_of_r_le (by linarith)]
        norm_num
        exact hrect
      · rw [area_fixed_eq_split h0 h1, area_fixed_eq_of_nonneg (le_refl 0),
          area_fixed_eq_of_nonneg (le_refl 0), tall_of_r_le (by linarith : r ≤ -y0),
          tall_of_r_le (by linarith : r ≤ y1), tall_of_r_le (by linarith : r ≤ 0)]
        norm_num
        exact hrect
    · rw [area_fixed_eq_of_nonneg h0, tall_of_r_le (by linarith), tall_of_r_le (by linarith)]
      norm_num
      exact hrect
  · rcases lt_or_ge y0 0 with h0 | h0
    · rcases lt_or_ge y1 0 with h1 | h1
      · rw [area_fixed_eq_flip h0 h1, area_fixed_eq_of_nonneg (by linarith)]
        obtain ⟨b1, b2⟩ := tall_diff_bounds hrpos hx (by linarith : (0:ℝ) ≤ -y1)
          (by linarith : -y1 ≤ -y0)
        have hid : (x1 - x0) * (-y0 - -y1) = (x1 - x0) * (y1 - y0) := by ring
        exact ⟨b1, by linarith⟩
      · rw [area_fixed_eq_split h0 h1, area_fixed_eq_of_nonneg (le_refl 0),
          area_fixed_eq_of_nonneg (le_refl 0)]
        obtain ⟨a1, a2⟩ := tall_diff_bounds hrpos hx (le_refl 0) (by linarith : (0:ℝ) ≤ -y0)
        obtain ⟨c1, c2⟩ := tall_diff_bounds hrpos hx (le_refl 0) h1
        have hid : (x1 - x0) * (-y0 - 0) + (x1 - x0) * (y1 - 0) =
            (x1 - x0) * (y1 - y0) := by ring
        exact ⟨by linarith, by linarith⟩
    · rw [area_fixed_eq_of_nonneg h0]
      obtain ⟨b1, b2⟩ := tall_diff_bounds hrpos hx h0 hy
      exact ⟨b1, by linarith⟩

/-- C10.  For every unit pixel cell `[x, x+1] × [y, y+1]` and every circle
with center `(cx, cy)` and radius `r ≥ 0`, the value of
`area_intersection_circle_rectangle` lies in `[0, 1]`. -/
theorem area_unit_cell_in_unit_interval (x y cx cy r : ℝ) (hr : 0 ≤ r) :
    0 ≤ area_intersection_circle_rectangle x y (x + 1) (y + 1) cx cy r ∧
    area_intersection_circle_rectangle x y (x + 1) (y + 1) cx cy r ≤ 1 := by
  unfold area_intersection_circle_rectangle
  obtain ⟨b1, b2⟩ := area_fixed_bounds hr
    (by linarith : x - cx ≤ x + 1 - cx) (by linarith : y - cy ≤ y + 1 - cy)
  have hid : (x + 1 - cx - (x - cx)) * (y + 1 - cy - (y - cy)) = 1 := by ring
  exact ⟨b1, by linarith⟩

/-- Witness for C10: the unit cell `[0,1] × [0,1]` against the circle of
radius `2` centered at `(5, 5)`. -/
theorem area_unit_cell_in_unit_interval_witness :
    0 ≤ area_intersection_circle_rectangle 0 0 (0 + 1) (0 + 1) 5 5 2 ∧
    area_intersection_circle_rectangle 0 0 (0 + 1) (0 + 1) 5 5 2 ≤ 1 :=
  area_unit_cell_in_unit_interval 0 0 5 5 2 (by norm_num)

/-! #### C1: a rectangle enclosing the circle captures the full area -/

/-- A tall rectangle with lower edge through the center and full horizontal
extent captures exactly half the disc. -/
lemma tall_full_half {x0 x1 r : ℝ} (hr : 0 < r) (hx0 : x0 ≤ -r) (hx1 : r ≤ x1) :
    area_intersection_fixed_circle_tall_rectangle x0 x1 0 r = Real.pi * (r * r) / 2 := by
  rw [tall_eq]
  have hs : sHalf 0 r = r := by
    unfold sHalf
    rw [if_pos hr, show r * r - 0 * 0 = r * r by ring]
    exact Real.sqrt_mul_self hr.le
  rw [hs, clamp_eq_hi hx1 (by linarith), clamp_eq_lo hx0, g_neg]
  have hgr : g r 0 r = Real.pi * (r * r) / 4 := by
    unfold g
    rw [show r * r / (r * r) = 1 from div_self (by positivity),
      show r / r = 1 from div_self (ne_of_gt hr), show (1:ℝ) - 1 = 0 by ring,
      Real.sqrt_zero, Real.arcsin_one]
    ring
  rw [hgr]
  ring

/-- C1.  For every circle of radius `r ≥ 0` and every rectangle that fully
encloses the disc of radius `r` about the center,
`area_intersection_circle_rectangle` equals `π r²` exactly. -/
theorem area_enclosing_rectangle_eq_pi_r_sq (x0 y0 x1 y1 cx cy r : ℝ) (hr : 0 ≤ r)
    (hx0 : x0 ≤ cx - r) (hx1 : cx + r ≤ x1) (hy0 : y0 ≤ cy - r) (hy1 : cy + r ≤ y1) :
    area_intersection_circle_rectangle x0 y0 x1 y1 cx cy r = Real.pi * r ^ 2 := by
  unfold area_intersection_circle_rectangle
  rcases eq_or_lt_of_le hr with hr0 | hrpos
  · rcases lt_or_ge (y0 - cy) 0 with h0 | h0
    · rw [area_fixed_eq_split h0 (by linarith : (0:ℝ) ≤ y1 - cy),
        area_fixed_eq_of_nonneg (le_refl 0), area_fixed_eq_of_nonneg (le_refl 0),
        tall_of_r_le (by linarith : r ≤ -(y0 - cy)), tall_of_r_le (by linarith : r ≤ y1 - cy),
        tall_of_r_le (by linarith : r ≤ 0)]
      rw [← hr0]
      norm_num
    · rw [area_fixed_eq_of_nonneg h0, tall_of_r_le (by linarith : r ≤ y0 - cy),
        tall_of_r_le (by linarith : r ≤ y1 - cy)]
      rw [← hr0]
      norm_num
  · have h0 : y0 - cy < 0 := by linarith
    have h1 : (0:ℝ) ≤ y1 - cy := by linarith
    rw [area_fixed_eq_split h0 h1, area_fixed_eq_of_nonneg (le_refl 0),
      area_fixed_eq_of_nonneg (le_refl 0),
      tall_of_r_le (by linarith : r ≤ -(y0 - cy)), tall_of_r_le (by linarith : r ≤ y1 - cy),
      tall_full_half hrpos (by linarith) (by linarith)]
    ring

/-- Witness for C1: the rectangle `[-2, 2] × [-2, 2]` encloses the unit
circle at the origin and the area is `π`. -/
theorem area_enclosing_rectangle_eq_pi_r_sq_witness :
    area_intersection_circle_rectangle (-2) (-2) 2 2 0 0 1 = Real.pi * 1 ^ 2 :=
  area_enclosing_rectangle_eq_pi_r_sq (-2) (-2) 2 2 0 0 1 (by norm_num)
    (by norm_num) (by norm_num) (by norm_num) (by norm_num)

/-! #### C4: reflection symmetry of the area function -/

lemma clamp_neg_symm {v s : ℝ} (hs : 0 ≤ s) : clamp (-v) (-s) s = -clamp v (-s) s := by
  unfold clamp
  simp only [min_def, max_def]
  split_ifs <;> linarith

/-- The tall-rectangle area is invariant under `x`-reflection. -/
lemma tall_neg_x (x0 x1 h r : ℝ) :
    area_intersection_fixed_circle_tall_rectangle (-x1) (-x0) h r =
      area_intersection_fixed_circle_tall_rectangle x0 x1 h r := by
  rw [tall_eq, tall_eq, clamp_neg_symm (sHalf_nonneg h r), clamp_neg_symm (sHalf_nonneg h r),
    g_neg, g_neg]
  ring

/-- Vertical-axis reflection symmetry of the fixed-circle area. -/
lemma area_fixed_neg_x (x0 y0 x1 y1 r : ℝ) :
    area_intersection_fixed_circle_rectangle (-x1) y0 (-x0) y1 r =
      area_intersection_fixed_circle_rectangle x0 y0 x1 y1 r := by
  rcases lt_or_ge y0 0 with h0 | h0
  · rcases lt_or_ge y1 0 with h1 | h1
    · rw [area_fixed_eq_flip h0 h1, area_fixed_eq_flip h0 h1,
        area_fixed_eq_of_nonneg (by linarith : (0:ℝ) ≤ -y1),
        area_fixed_eq_of_nonneg (by linarith : (0:ℝ) ≤ -y1), tall_neg_x, tall_neg_x]
    · rw [area_fixed_eq_split h0 h1, area_fixed_eq_split h0 h1,
        area_fixed_eq_of_nonneg (le_refl 0), area_fixed_eq_of_nonneg (le_refl 0),
        area_fixed_eq_of_nonneg (le_refl 0), area_fixed_eq_of_nonneg (le_refl 0),
        tall_neg_x, tall_neg_x, tall_neg_x]
  · rw [area_fixed_eq_of_nonneg h0, area_fixed_eq_of_nonneg h0, tall_neg_x, tall_neg_x]

/-- Horizontal-axis reflection symmetry of the fixed-circle area. -/
lemma area_fixed_flip_y (x0 y0 x1 y1 r : ℝ) (hy : y0 ≤ y1) :
    area_intersection_fixed_circle_rectangle x0 (-y1) x1 (-y0) r =
      area_intersection_fixed_circle_rectangle x0 y0 x1 y1 r := by
  rcases lt_or_ge y0 0 with h0 | h0
  · rcases lt_or_ge y1 0 with h1 | h1
    · rw [area_fixed_eq_flip h0 h1]
    · rcases eq_or_lt_of_le h1 with he | h1pos
      · subst he
        rw [area_fixed_eq_split h0 (le_refl 0), neg_zero,
          area_fixed_eq_of_nonneg (le_refl 0), area_fixed_eq_of_nonneg (le_refl 0)]
        ring
      · rw [area_fixed_eq_split (by linarith : -y1 < 0) (by linarith : (0:ℝ) ≤ -y0), neg_neg,
          area_fixed_eq_split h0 h1]
        ring
  · rcases eq_or_lt_of_le h0 with he | h0pos
    · subst he
      rcases eq_or_lt_of_le hy with he1 | h1pos
      · subst he1
        rw [neg_zero]
      · rw [area_fixed_eq_split (by linarith : -y1 < 0) (by norm_num : (0:ℝ) ≤ -0), neg_neg,
          neg_zero, area_fixed_eq_of_nonneg (le_refl 0), area_fixed_eq_of_nonneg (le_refl 0)]
        ring
    · rw [area_fixed_eq_flip (by linarith : -y1 < 0) (by linarith : -y0 < 0), neg_neg, neg_neg]

/-- C4.  The area function is symmetric under reflection of the rectangle
across the circle's horizontal center line `y = cy` and across its vertical
center line `x = cx`. -/
theorem area_reflection_symmetry (x0 y0 x1 y1 cx cy r : ℝ)
    (hx : x0 ≤ x1) (hy : y0 ≤ y1) (hr : 0 ≤ r) :
    area_intersection_circle_rectangle x0 (2 * cy - y1) x1 (2 * cy - y0) cx cy r =
      area_intersection_circle_rectangle x0 y0 x1 y1 cx cy r ∧
    area_intersection_circle_rectangle (2 * cx - x1) y0 (2 * cx - x0) y1 cx cy r =
      area_intersection_circle_rectangle x0 y0 x1 y1 cx cy r := by
  constructor
  · unfold area_intersection_circle_rectangle
    rw [show 2 * cy - y1 - cy = -(y1 - cy) by ring, show 2 * cy - y0 - cy = -(y0 - cy) by ring]
    exact area_fixed_flip_y _ _ _ _ _ (by linarith)
  · unfold area_intersection_circle_rectangle
    rw [show 2 * cx - x1 - cx = -(x1 - cx) by ring, show 2 * cx - x0 - cx = -(x0 - cx) by ring]
    exact area_fixed_neg_x _ _ _ _ _

/-- Witness for C4 at a concrete rectangle and circle. -/
theorem area_reflection_symmetry_witness :
    area_intersection_circle_rectangle 1 (2 * 4 - 5) 3 (2 * 4 - 2) 6 4 7 =
      area_intersection_circle_rectangle 1 2 3 5 6 4 7 ∧
    area_intersection_circle_rectangle (2 * 6 - 3) 2 (2 * 6 - 1) 5 6 4 7 =
      area_intersection_circle_rectangle 1 2 3 5 6 4 7 :=
  area_reflection_symmetry 1 2 3 5 6 4 7 (by norm_num) (by norm_num) (by norm_num)

/-! ### C2: the area-intersection rasterizer and its row bounds -/

/-- Rust `as u32` on a (non-NaN) `f32` value: truncate toward zero and
saturate to `[0, 2^32 - 1]`; for negative values the floor is negative and
`Int.toNat` yields `0`, matching the saturation at `0`. -/
noncomputable def real_as_u32 (v : ℝ) : ℕ := min (Int.toNat ⌊v⌋) (2 ^ 32 - 1)

/-- A write event of the area-intersection rasterizer: a blended single
pixel or a solid unchecked horizontal span. -/
inductive AAWrite where
  | pixel (x y : ℕ)
  | hline (x0 x1 y : ℕ)
deriving DecidableEq

/-- The canvas row an `AAWrite` touches. -/
def AAWrite.row : AAWrite → ℕ
  | .pixel _ y => y
  | .hline _ _ y => y

open Classical in
/-- The first (left-boundary) loop of `draw_horizontal_line_unchecked_y` in
`AreaIntersectionRasterizer::draw_filled_circle`: walk `min_x` rightward,
blending pixels with coverage `< 1`, break on full coverage, return once
`min_x` reaches `max_x`.  Returns the pixel writes and `some min_x` on
`break` (continue to the right-boundary loop) or `none` on `return`.
`fuel` bounds the iteration count; `(max_x - min_x) + 1` is always enough. -/
noncomputable def aaLoop1 (cx cy r : ℝ) (y : ℕ) (y0 y1 : ℝ) :
    ℕ → ℕ → ℕ → List AAWrite × Option ℕ
  | 0, min_x, _ => ([], some min_x)
  | fuel + 1, min_x, max_x =>
    if 1 ≤ area_intersection_circle_rectangle (min_x : ℝ) y0 ((min_x : ℝ) + 1) y1 cx cy r then
      ([], some min_x)
    else if min_x + 1 ≥ max_x then ([AAWrite.pixel min_x y], none)
    else
      ((AAWrite.pixel min_x y) :: (aaLoop1 cx cy r y y0 y1 fuel (min_x + 1) max_x).1,
        (aaLoop1 cx cy r y y0 y1 fuel (min_x + 1) max_x).2)

open Classical in
/-- The second (right-boundary) loop: walk `max_x` leftward with the
wrapping `u32` decrement of the source, blending pixels with coverage `< 1`
and breaking on full coverage (returning the final `max_x`). -/
noncomputable def aaLoop2 (cx cy r : ℝ) (y : ℕ) (y0 y1 : ℝ) :
    ℕ → ℕ → List AAWrite × Option ℕ
  | 0, _ => ([], none)
  | fuel + 1, max_x =>
    if 1 ≤ area_intersection_circle_rectangle (max_x : ℝ) y0 ((max_x : ℝ) + 1) y1 cx cy r then
      ([], some max_x)
    else
      ((AAWrite.pixel max_x y) :: (aaLoop2 cx cy r y y0 y1 fuel ((max_x + (2 ^ 32 - 1)) % 2 ^ 32)).1,
        (aaLoop2 cx cy r y y0 y1 fuel ((max_x + (2 ^ 32 - 1)) % 2 ^ 32)).2)

/-- Assemble the row trace from the left-walk result: on `return` stop; on
`break` run the right walk and finish with the solid interior span. -/
noncomputable def aaRowTraceAux (W : ℕ) (cx cy r : ℝ) (y : ℕ) (y0 y1 : ℝ)
    (res1 : List AAWrite × Option ℕ) (max_x : ℕ) : List AAWrite :=
  match res1 with
  | (ws, none) => ws
  | (ws, some m) =>
    match aaLoop2 cx cy r y y0 y1 (2 ^ 32) max_x with
    | (ws2, none) => ws ++ ws2
    | (ws2, some mx) => ws ++ ws2 ++ [AAWrite.hline m (mx + 1) y]

/-- One call of the row closure `draw_horizontal_line_unchecked_y`:
boundary-walk from both ends, then one solid span `[min_x, max_x + 1)` over
the fully covered interior. -/
noncomputable def aaRowTrace (W : ℕ) (cx cy r : ℝ) (y : ℕ) (r_x y0 y1 : ℝ) : List AAWrite :=
  aaRowTraceAux W cx cy r y y0 y1
    (aaLoop1 cx cy r y y0 y1
      ((min (real_as_u32 (cx + r_x) + 1) (W - 1) - real_as_u32 (cx - r_x)) + 1)
      (real_as_u32 (cx - r_x)) (min (real_as_u32 (cx + r_x) + 1) (W - 1)))
    (min (real_as_u32 (cx + r_x) + 1) (W - 1))

open Classical in
/-- The full write trace of
`AreaIntersectionRasterizer::draw_filled_circle`: the bounding-box guards,
the per-pixel small-radius path (`r ≤ 2`), and the general path whose first
row loop runs over `min_y .. cy as u32` and whose second runs over
`cy as u32 .. max_y`. -/
noncomputable def AreaIntersectionRasterizer_writeTrace (W H : ℕ) (cx cy r : ℝ) :
    List AAWrite :=
  if real_as_u32 (cy - r) ≥ H then [] else
  if real_as_u32 (cx - r) ≥ W then [] else
  if r ≤ 2 then
    (List.range' (real_as_u32 (cy - r))
        (min (real_as_u32 (cy + r + 1)) H - real_as_u32 (cy - r))).flatMap (fun y =>
      (List.range' (real_as_u32 (cx - r))
          (min (real_as_u32 (cx + r + 1)) W - real_as_u32 (cx - r))).map (fun x =>
        AAWrite.pixel x y))
  else
    (List.range' (real_as_u32 (cy - r)) (real_as_u32 cy - real_as_u32 (cy - r))).flatMap
      (fun y => aaRowTrace W cx cy r y
        (Real.sqrt (r * r - (((y : ℝ) + 1) - cy) * (((y : ℝ) + 1) - cy))) (y : ℝ) ((y : ℝ) + 1)) ++
    (List.range' (real_as_u32 cy)
        (min (real_as_u32 (cy + r + 1)) H - real_as_u32 cy)).flatMap
      (fun y => aaRowTrace W cx cy r y
        (Real.sqrt (r * r - ((y : ℝ) - cy) * ((y : ℝ) - cy))) (y : ℝ) ((y : ℝ) + 1))

open Classical in
lemma aaLoop1_succ_eq (cx cy r : ℝ) (y : ℕ) (y0 y1 : ℝ) (fuel min_x max_x : ℕ) :
    aaLoop1 cx cy r y y0 y1 (fuel + 1) min_x max_x =
      if 1 ≤ area_intersection_circle_rectangle (min_x : ℝ) y0 ((min_x : ℝ) + 1) y1 cx cy r then
        ([], some min_x)
      else if min_x + 1 ≥ max_x then ([AAWrite.pixel min_x y], none)
      else
        ((AAWrite.pixel min_x y) :: (aaLoop1 cx cy r y y0 y1 fuel (min_x + 1) max_x).1,
          (aaLoop1 cx cy r y y0 y1 fuel (min_x + 1) max_x).2) := rfl

open Classical in
lemma aaLoop2_succ_eq (cx cy r : ℝ) (y : ℕ) (y0 y1 : ℝ) (fuel max_x : ℕ) :
    aaLoop2 cx cy r y y0 y1 (fuel + 1) max_x =
      if 1 ≤ area_intersection_circle_rectangle (max_x : ℝ) y0 ((max_x : ℝ) + 1) y1 cx cy r then
        ([], some max_x)
      else
        ((AAWrite.pixel max_x y) ::
            (aaLoop2 cx cy r y y0 y1 fuel ((max_x + (2 ^ 32 - 1)) % 2 ^ 32)).1,
          (aaLoop2 cx cy r y y0 y1 fuel ((max_x + (2 ^ 32 - 1)) % 2 ^ 32)).2) := rfl

/-- Whatever the coverage values are, every call of the row closure
performs at least one write on its own row `y`: either the very first
boundary pixel is blended, or both walks break immediately and the interior
span write at row `y` happens. -/
lemma aaRowTrace_has_row_write (W : ℕ) (cx cy r : ℝ) (y : ℕ) (r_x y0 y1 : ℝ) :
    ∃ w ∈ aaRowTrace W cx cy r y r_x y0 y1, AAWrite.row w = y := by
  unfold aaRowTrace
  set mn := real_as_u32 (cx - r_x) with hmn
  set mx := min (real_as_u32 (cx + r_x) + 1) (W - 1) with hmx
  rw [aaLoop1_succ_eq]
  by_cases h1 : 1 ≤ area_intersection_circle_rectangle (mn : ℝ) y0 ((mn : ℝ) + 1) y1 cx cy r
  · rw [if_pos h1]
    unfold aaRowTraceAux
    rw [show (2 : ℕ) ^ 32 = (2 ^ 32 - 1) + 1 by norm_num, aaLoop2_succ_eq]
    by_cases h2 : 1 ≤ area_intersection_circle_rectangle (mx : ℝ) y0 ((mx : ℝ) + 1) y1 cx cy r
    · rw [if_pos h2]
      exact ⟨AAWrite.hline mn (mx + 1) y, by simp, rfl⟩
    · rw [if_neg h2]
      refine ⟨AAWrite.pixel mx y, ?_, rfl⟩
      rcases hres2 : (aaLoop2 cx cy r y y0 y1 (2 ^ 32 - 1)
          ((mx + (2 ^ 32 - 1)) % 2 ^ 32)).2 with _ | m2 <;>
        simp [hres2]
  · rw [if_neg h1]
    by_cases h2 : mn + 1 ≥ mx
    · rw [if_pos h2]
      exact ⟨AAWrite.pixel mn y, by simp [aaRowTraceAux], rfl⟩
    · rw [if_neg h2]
      refine ⟨AAWrite.pixel mn y, ?_, rfl⟩
      rcases hres : (aaLoop1 cx cy r y y0 y1 (mx - mn) (mn + 1) mx).2 with _ | m
      · simp [aaRowTraceAux, hres]
      · rw [show (aaLoop1 cx cy r y y0 y1 (mx - mn) (mn + 1) mx) =
            ((aaLoop1 cx cy r y y0 y1 (mx - mn) (mn + 1) mx).1, some m) from by
          rw [← hres]]
        unfold aaRowTraceAux
        rcases (aaLoop2 cx cy r y y0 y1 (2 ^ 32) mx) with ⟨ws2, _ | m2⟩ <;> simp

lemma real_as_u32_natCast (n : ℕ) (hn : n < 2 ^ 32) : real_as_u32 (n : ℝ) = n := by
  unfold real_as_u32
  rw [Int.floor_natCast]
  simp
  omega

/-- C2 (bug).  On a `10 × 10` canvas, drawing the circle centered at
`(100, 100)` with `r = 95` passes all the off-canvas guards
(`min_y = min_x = 5 < 10`), takes the general path (`r > 2`), and its first
row loop `for y in min_y..cy as u32` — which is not clamped by
`max_y = min(.., height)` — reaches row `10 = height` and performs a write
there, violating `y < height` required by `draw_pixel_unchecked` /
`draw_horizontal_line_unchecked`. -/
theorem c2_bug_writes_out_of_canvas_row :
    ∃ w ∈ AreaIntersectionRasterizer_writeTrace 10 10 100 100 95,
      10 ≤ AAWrite.row w := by
  have e5 : real_as_u32 ((100 : ℝ) - 95) = 5 := by
    rw [show ((100 : ℝ) - 95) = ((5 : ℕ) : ℝ) by norm_num]
    exact real_as_u32_natCast 5 (by norm_num)
  have e100 : real_as_u32 (100 : ℝ) = 100 := by
    rw [show ((100 : ℝ)) = ((100 : ℕ) : ℝ) by norm_num]
    exact real_as_u32_natCast 100 (by norm_num)
  unfold AreaIntersectionRasterizer_writeTrace
  rw [e5, if_neg (by norm_num : ¬ 5 ≥ 10), if_neg (by norm_num : ¬ 5 ≥ 10),
    if_neg (by norm_num : ¬ (95 : ℝ) ≤ 2), e100]
  obtain ⟨w, hw, hrow⟩ := aaRowTrace_has_row_write 10 100 100 95 10
    (Real.sqrt (95 * 95 - (((10 : ℕ) : ℝ) + 1 - 100) * (((10 : ℕ) : ℝ) + 1 - 100)))
    ((10 : ℕ) : ℝ) (((10 : ℕ) : ℝ) + 1)
  refine ⟨w, List.mem_append_left _ ?_, by rw [hrow]⟩
  exact List.mem_flatMap.mpr ⟨10, by decide, hw⟩
